import Mathlib

/-!
Shallow embedding of `src/netfuncs.py`, a small IPv4 utility:
conversion between dotted-decimal addresses and 32-bit values, subnet
masks from slash notation, same-subnet tests, router resolution, and the
report driver.

Python strings are modelled as lists of Unicode code points
(`List Nat`); `strCodes` converts a Lean string literal to that
representation for concrete inputs.  Relevant code points: 46 is the dot,
47 is the slash, 48 to 57 are the decimal digits, 32 is the space.
Fallible Python code (raising exceptions) is modelled with `Option`,
where `none` stands for an uncaught exception.
-/

/-- Code points of a string literal, used to write concrete inputs. -/
def strCodes (s : String) : List Nat := s.toList.map Char.toNat

/-- The Python expression `s.split(sep)` for a one-character separator
`sep`: splits at every occurrence of the separator, keeping empty pieces,
and yields one piece even for the empty string. -/
def pySplit (sep : Nat) : List Nat → List (List Nat)
  | [] => [[]]
  | c :: rest =>
    if c = sep then [] :: pySplit sep rest
    else
      match pySplit sep rest with
      | [] => [[c]]
      | h :: t => (c :: h) :: t

/-- Joining with a one-element separator, the inverse of `pySplit`
(used only to state lemmas, not part of the program). -/
def joinSep (sep : Nat) : List (List Nat) → List Nat
  | [] => []
  | [x] => x
  | x :: y :: t => x ++ sep :: joinSep sep (y :: t)

/-- Whether a code point is a decimal digit (codes 48 to 57). -/
def isDigitCode (c : Nat) : Bool := decide (48 ≤ c) && decide (c ≤ 57)

/-- Decimal value of a digit string (the value `int(s)` computes on an
all-digit string). -/
def pyIntVal (l : List Nat) : Nat := l.foldl (fun a c => a * 10 + (c - 48)) 0

/-- The Python conversion `int(s)`, modelled on the nonempty all-digit
strings this program exercises; on any other string the conversion is
treated as raising `ValueError` (`none`). -/
def pyIntOpt (l : List Nat) : Option Nat :=
  if l ≠ [] ∧ l.all isDigitCode then some (pyIntVal l) else none

/-- Rendering loop for `str(n)` on a natural number: peels decimal digits
from the right; the fuel argument (`n + 1` at top level) bounds the digit
count and makes the recursion structural. -/
def natCharsAux : Nat → Nat → List Nat → List Nat
  | 0, _, acc => acc
  | fuel + 1, n, acc =>
    let acc₂ := (48 + n % 10) :: acc
    if n < 10 then acc₂ else natCharsAux fuel (n / 10) acc₂

/-- The Python expression `str(n)` for a natural number `n`: its decimal
digits, no leading zeros. -/
def natChars (n : Nat) : List Nat := natCharsAux (n + 1) n []

/-- The loop of `ipv4_to_value`: for each dot-separated part,
`result = (int(part) << num) | result` with `num` starting at 24 and
dropping by 8.  A failing `int` or a negative shift amount raises
(`none`), exactly as in Python. -/
def ipv4Loop : List (List Nat) → Int → Nat → Option Nat
  | [], _, result => some result
  | part :: rest, num, result =>
    match pyIntOpt part with
    | none => none
    | some p =>
      if num < 0 then none
      else ipv4Loop rest (num - 8) ((p <<< num.toNat) ||| result)

/-- `ipv4_to_value(ipv4_addr)` from netfuncs.py: split on the dot and
accumulate each part shifted into place. -/
def ipv4_to_value (ipv4_addr : List Nat) : Option Nat :=
  ipv4Loop (pySplit 46 ipv4_addr) 24 0

/-- `value_to_ipv4(addr)` from netfuncs.py: build the octet list by
prepending `(addr >> i) & 0xff` for `i` in `range(0, 32, 8)`, then
reduce with `str(a) + "." + str(b)`. -/
def value_to_ipv4 (addr : Nat) : List Nat :=
  match [0, 8, 16, 24].foldl (fun res i => ((addr >>> i) &&& 255) :: res) [] with
  | [] => []
  | h :: t => t.foldl (fun a b => a ++ 46 :: natChars b) (natChars h)

/-- `set_bit(num, digit)` from netfuncs.py: `num | (1 << digit)`; a
negative shift amount raises `ValueError` (`none`). -/
def set_bit (num : Nat) (digit : Int) : Option Nat :=
  if digit < 0 then none else some (num ||| (1 <<< digit.toNat))

/-- The Python expression `range(b, e)` over integers. -/
def pyRangeInt (b e : Int) : List Int :=
  (List.range (e - b).toNat).map (fun i => b + i)

/-- `set_bits(num, begin, end)` from netfuncs.py: set every bit position
in `range(begin, end)`. -/
def set_bits (num : Nat) (b e : Int) : Option Nat :=
  (pyRangeInt b e).foldlM set_bit num

/-- `get_subnet_mask_value(slash)` from netfuncs.py: parse the part after
the last slash and set the top bits of a 32-bit word. -/
def get_subnet_mask_value (slash : List Nat) : Option Nat :=
  match pyIntOpt ((pySplit 47 slash).getLastD []) with
  | none => none
  | some n => set_bits 0 (32 - (n : Int)) 32

/-- `ips_same_subnet(ip1, ip2, slash)` from netfuncs.py. -/
def ips_same_subnet (ip1 ip2 slash : List Nat) : Option Bool :=
  match get_subnet_mask_value slash with
  | none => none
  | some mask =>
    match ipv4_to_value ip1 with
    | none => none
    | some ip1_value =>
      match ipv4_to_value ip2 with
      | none => none
      | some ip2_value => some (decide (ip1_value &&& mask = ip2_value &&& mask))

/-- `get_network(ip_value, netmask)` from netfuncs.py. -/
def get_network (ip_value netmask : Nat) : Nat := ip_value &&& netmask

/-- `find_router_for_ip(routers, ip)` from netfuncs.py.  The router
table is a Python dict, modelled as an association list in insertion
order; each router dict is reduced to the one field the function reads,
its `"netmask"` string (other metadata is opaque and ignored).  The
outer `Option` is the exception channel; the inner one is the Python
`None` result when no router matches. -/
def find_router_for_ip : List (List Nat × List Nat) → List Nat → Option (Option (List Nat))
  | [], _ => some none
  | (router_ip, netmask) :: rest, ip =>
    match ips_same_subnet ip router_ip netmask with
    | none => none
    | some true => some (some router_ip)
    | some false => find_router_for_ip rest ip

/-- Lexicographic order on code-point strings, the order Python uses to
compare strings. -/
def codeLe : List Nat → List Nat → Bool
  | [], _ => true
  | _ :: _, [] => false
  | a :: xs, b :: ys => if a < b then true else if b < a then false else codeLe xs ys

/-- Insertion step of the model of the Python builtin `sorted`. -/
def pyInsertBy (le : α → α → Bool) (x : α) : List α → List α
  | [] => [x]
  | y :: ys => if le x y then x :: y :: ys else y :: pyInsertBy le x ys

/-- Model of the Python builtin `sorted` (an insertion sort; it agrees
with any comparison sort for a total order). -/
def pySortBy (le : α → α → Bool) : List α → List α
  | [] => []
  | x :: xs => pyInsertBy le x (pySortBy le xs)

/-- Model of the Python expression `set(l)`: the distinct elements of
`l` (first occurrences, in order; the program always sorts the result,
so the arbitrary iteration order of a real set is irrelevant). -/
def pySetList (l : List (List Nat)) : List (List Nat) :=
  l.foldl (fun acc x => if x ∈ acc then acc else acc ++ [x]) []

/-- Reading of claim C5: like `find_router_for_ip`, but iterating the
routers sorted by router key, as the claim words it. -/
def find_router_for_ip_claimed (routers : List (List Nat × List Nat)) (ip : List Nat) :
    Option (Option (List Nat)) :=
  find_router_for_ip (pySortBy (fun a b => codeLe a.1 b.1) routers) ip

/-- One step of building `router_host_map` in `print_ip_routers`: append
`ip` to the bucket of key `k`, creating the bucket (at the end, in dict
insertion order) if absent. -/
def bucketAdd (m : List (Option (List Nat) × List (List Nat))) (k : Option (List Nat))
    (ip : List Nat) : List (Option (List Nat) × List (List Nat)) :=
  if m.any (fun p => p.1 = k) then
    m.map (fun p => if p.1 = k then (p.1, p.2 ++ [ip]) else p)
  else m ++ [(k, [ip])]

/-- The Python format specification `{s:>15s}`: right-align in a field
of width 15 with spaces (code 32). -/
def padLeft15 (s : List Nat) : List Nat := List.replicate (15 - s.length) 32 ++ s

/-- The Python repr of a list of strings, as printed by an f-string:
brackets, single quotes, comma-space separators. -/
def pyListRepr (l : List (List Nat)) : List Nat :=
  91 :: (match l.map (fun s => 39 :: (s ++ [39])) with
    | [] => []
    | h :: t => t.foldl (fun a b => a ++ 44 :: 32 :: b) h) ++ [93]

/-- `print_ip_routers(routers, src_dest_pairs)` from netfuncs.py,
returning the printed lines.  `none` models an uncaught exception: in
Python 3, `sorted(router_host_map.keys())` raises `TypeError` when the
keys mix `None` with strings, and the f-string `{router_ip:>15s}` raises
`TypeError` when `router_ip` is `None` (the header line is printed
before the exception; the model only reports the failure). -/
def print_ip_routers (routers : List (List Nat × List Nat))
    (src_dest_pairs : List (List Nat × List Nat)) : Option (List (List Nat)) :=
  let all_ips := pySortBy codeLe (pySetList (src_dest_pairs.flatMap (fun p => [p.1, p.2])))
  match all_ips.foldlM
      (fun m ip => (find_router_for_ip routers ip).map (fun r => bucketAdd m r ip))
      ([] : List (Option (List Nat) × List (List Nat))) with
  | none => none
  | some m =>
    let ks := m.map Prod.fst
    if ks.contains none && ks.any (fun k => k.isSome) then none
    else
      let sortedKs : List (Option (List Nat)) :=
        if ks.all (fun k => k.isSome) then (pySortBy codeLe (ks.filterMap id)).map some
        else ks
      sortedKs.foldlM
        (fun lines k =>
          match k with
          | none => none
          | some r =>
            some (lines ++ [32 :: (padLeft15 r ++ 58 :: 32 ::
              pyListRepr (((m.find? (fun p => p.1 = k)).map Prod.snd).getD []))]))
        [strCodes "Routers and corresponding IPs:"]

/-- The usage message `usage()` writes to stderr. -/
def usageMessage : List Nat := strCodes "usage: netfuncs.py infile.json"

/-- Outcome of `main(argv)`: either the usage path (stderr lines plus
the value returned to `sys.exit`) or proceeding to process the named
input file (the I/O part of the program, outside the modelled core). -/
inductive MainStep where
  | usageExit : List (List Nat) → Nat → MainStep
  | runFile : List Nat → MainStep
  deriving DecidableEq

/-- `main(argv)` from netfuncs.py up to its first branch: `my_tests` is
commented out in the source so the `globals()` check fails, then
`argv[1]` either raises `IndexError`, caught to print the usage message
and return 1, or names the input file to process.  (Named `mainEntry`
because Lean reserves `main` for executables.) -/
def mainEntry (argv : List (List Nat)) : MainStep :=
  match argv[1]? with
  | none => MainStep.usageExit [usageMessage] 1
  | some f => MainStep.runFile f

/-- A dot-separated part accepted by `int` with a value in octet range:
nonempty, all digits, value at most 255. -/
def octetOk (l : List Nat) : Bool :=
  decide (l ≠ []) && l.all isDigitCode && decide (pyIntVal l ≤ 255)

/-- A canonical octet string: parses to an octet value and carries no
leading zero. -/
def canonOctet (l : List Nat) : Bool :=
  octetOk l && (decide (l.length = 1) || decide (l.headD 0 ≠ 48))

/-- A dotted-decimal string of exactly four parts, each a decimal
integer from 0 to 255 (leading zeros allowed). -/
def parsesIPv4 (s : List Nat) : Bool :=
  decide ((pySplit 46 s).length = 4) && (pySplit 46 s).all octetOk

/-- A well-formed canonical dotted-decimal string: four parts, each in
range, no leading zeros. -/
def wellFormedIPv4 (s : List Nat) : Bool :=
  decide ((pySplit 46 s).length = 4) && (pySplit 46 s).all canonOctet

/-! Lemmas about the split and join of code-point strings. -/

theorem pySplit_ne_nil (sep : Nat) (l : List Nat) : pySplit sep l ≠ [] := by
  cases l with
  | nil => simp [pySplit]
  | cons c rest =>
    simp only [pySplit]
    split
    · simp
    · split <;> simp

theorem length_pySplit (sep : Nat) (l : List Nat) :
    (pySplit sep l).length = l.count sep + 1 := by
  induction l with
  | nil => simp [pySplit]
  | cons c rest ih =>
    by_cases hc : c = sep
    · subst hc
      simp [pySplit, List.count_cons, ih]
    · rcases hr : pySplit sep rest with _ | ⟨hd, tl⟩
      · exact absurd hr (pySplit_ne_nil sep rest)
      · rw [hr] at ih
        simp only [pySplit, if_neg hc, hr, List.length_cons] at ih ⊢
        simp [List.count_cons, hc, Ne.symm hc]
        omega

theorem pySplit_of_not_mem {sep : Nat} {l : List Nat} (h : sep ∉ l) : pySplit sep l = [l] := by
  induction l with
  | nil => rfl
  | cons c rest ih =>
    have hc : c ≠ sep := fun e => h (e ▸ List.mem_cons_self c rest)
    have hr : sep ∉ rest := fun m => h (List.mem_cons_of_mem _ m)
    simp only [pySplit, if_neg hc, ih hr]

theorem pySplit_append {sep : Nat} {xs : List Nat} (ys : List Nat) (h : sep ∉ xs) :
    pySplit sep (xs ++ sep :: ys) = xs :: pySplit sep ys := by
  induction xs with
  | nil => simp [pySplit]
  | cons x xs ih =>
    have hx : x ≠ sep := fun e => h (e ▸ List.mem_cons_self x xs)
    have hxs : sep ∉ xs := fun m => h (List.mem_cons_of_mem _ m)
    simp only [List.cons_append, pySplit, if_neg hx, List.append_eq, ih hxs]

theorem joinSep_pySplit (sep : Nat) (l : List Nat) : joinSep sep (pySplit sep l) = l := by
  induction l with
  | nil => rfl
  | cons c rest ih =>
    by_cases hc : c = sep
    · subst hc
      rcases hr : pySplit c rest with _ | ⟨hd, tl⟩
      · exact absurd hr (pySplit_ne_nil c rest)
      · rw [hr] at ih
        simp only [pySplit, if_pos rfl, List.append_eq, hr, joinSep, List.nil_append]
        rw [ih]
    · rcases hr : pySplit sep rest with _ | ⟨hd, tl⟩
      · exact absurd hr (pySplit_ne_nil sep rest)
      · rw [hr] at ih
        simp only [pySplit, if_neg hc, List.append_eq, hr]
        cases tl with
        | nil =>
          simp only [joinSep] at ih ⊢
          rw [ih]
        | cons z zs =>
          simp only [joinSep, List.cons_append] at ih ⊢
          rw [ih]

theorem getLast?_pySplit_append {sep : Nat} (xs : List Nat) {ys : List Nat} (h : sep ∉ ys) :
    (pySplit sep (xs ++ sep :: ys)).getLast? = some ys := by
  induction xs with
  | nil =>
    simp [pySplit, pySplit_of_not_mem h]
  | cons x xs ih =>
    have hlen : (pySplit sep (xs ++ sep :: ys)).length = (xs ++ sep :: ys).count sep + 1 :=
      length_pySplit sep _
    have hcnt : 1 ≤ (xs ++ sep :: ys).count sep := by
      have hm : sep ∈ xs ++ sep :: ys := List.mem_append_right _ (List.mem_cons_self sep ys)
      exact List.count_pos_iff.mpr hm
    rcases hr : pySplit sep (xs ++ sep :: ys) with _ | ⟨hd, tl⟩
    · exact absurd hr (pySplit_ne_nil sep _)
    · rw [hr] at ih
      rw [hr] at hlen
      have htl : tl ≠ [] := by
        intro e
        subst e
        simp only [List.length_cons, List.length_nil] at hlen
        omega
      rcases tl with _ | ⟨z, zs⟩
      · exact absurd rfl htl
      · by_cases hx : x = sep
        · simp only [List.cons_append, pySplit, if_pos hx, List.append_eq, hr]
          simpa using ih
        · simp only [List.cons_append, pySplit, if_neg hx, List.append_eq, hr]
          simpa using ih

/-! Lemmas about digit strings and decimal rendering. -/

theorem foldl_digits_shift (l : List Nat) (a : Nat) :
    l.foldl (fun x c => x * 10 + (c - 48)) a = a * 10 ^ l.length + pyIntVal l := by
  induction l generalizing a with
  | nil => simp [pyIntVal]
  | cons c t ih =>
    simp only [List.foldl_cons, pyIntVal, List.length_cons] at ih ⊢
    rw [ih (a * 10 + (c - 48)), ih (0 * 10 + (c - 48))]
    ring

theorem pyIntVal_cons (c : Nat) (t : List Nat) :
    pyIntVal (c :: t) = (c - 48) * 10 ^ t.length + pyIntVal t := by
  simp only [pyIntVal, List.foldl_cons]
  rw [foldl_digits_shift]
  simp [pyIntVal]

theorem pyIntVal_lt (l : List Nat) (h : l.all isDigitCode = true) :
    pyIntVal l < 10 ^ l.length := by
  induction l with
  | nil => simp [pyIntVal]
  | cons c t ih =>
    simp only [List.all_cons, Bool.and_eq_true] at h
    have hc : c ≤ 57 := by
      have hh := h.1
      simp only [isDigitCode, Bool.and_eq_true, decide_eq_true_eq] at hh
      omega
    have ht := ih h.2
    rw [pyIntVal_cons]
    have hc9 : (c - 48) ≤ 9 := by omega
    have hmul : (c - 48) * 10 ^ t.length ≤ 9 * 10 ^ t.length :=
      Nat.mul_le_mul_right _ hc9
    have hpow : (10:Nat) ^ (c :: t).length = 10 * 10 ^ t.length := by
      simp [List.length_cons]
      ring
    omega

theorem pyIntVal_ge (c : Nat) (t : List Nat) (hc : 49 ≤ c) :
    10 ^ t.length ≤ pyIntVal (c :: t) := by
  rw [pyIntVal_cons]
  have h1 : 1 ≤ c - 48 := by omega
  have : 1 * 10 ^ t.length ≤ (c - 48) * 10 ^ t.length := Nat.mul_le_mul_right _ h1
  omega

theorem natCharsAux_small (f n : Nat) (acc : List Nat) (hf : 1 ≤ f) (h : n < 10) :
    natCharsAux f n acc = (48 + n % 10) :: acc := by
  obtain ⟨g, rfl⟩ : ∃ g, f = g + 1 := ⟨f - 1, by omega⟩
  simp [natCharsAux, h]

theorem natCharsAux_step (f n : Nat) (acc : List Nat) (hf : 1 ≤ f) (h : 10 ≤ n) :
    natCharsAux f n acc = natCharsAux (f - 1) (n / 10) ((48 + n % 10) :: acc) := by
  obtain ⟨g, rfl⟩ : ∃ g, f = g + 1 := ⟨f - 1, by omega⟩
  have hlt : ¬ n < 10 := by omega
  simp [natCharsAux, hlt]

theorem natChars_one (n : Nat) (h : n < 10) : natChars n = [48 + n] := by
  rw [natChars, natCharsAux_small _ _ _ (by omega) h, Nat.mod_eq_of_lt h]

theorem natChars_two (n : Nat) (hhi : n < 100) (hlo : 10 ≤ n) :
    natChars n = [48 + n / 10, 48 + n % 10] := by
  rw [natChars, natCharsAux_step _ _ _ (by omega) hlo]
  have h10 : n / 10 < 10 := by omega
  rw [show n + 1 - 1 = n from rfl, natCharsAux_small _ _ _ (by omega) h10,
    Nat.mod_eq_of_lt h10]

theorem natChars_three (n : Nat) (hhi : n < 1000) (hlo : 100 ≤ n) :
    natChars n = [48 + n / 100, 48 + n / 10 % 10, 48 + n % 10] := by
  rw [natChars, natCharsAux_step _ _ _ (by omega) (by omega : 10 ≤ n)]
  rw [show n + 1 - 1 = n from rfl]
  rw [natCharsAux_step _ _ _ (by omega) (by omega : 10 ≤ n / 10)]
  have h10 : n / 10 / 10 < 10 := by omega
  rw [natCharsAux_small _ _ _ (by omega) h10]
  have e3 : n / 10 / 10 % 10 = n / 100 := by omega
  rw [e3]

theorem natChars_props (n : Nat) (h : n ≤ 255) :
    pyIntOpt (natChars n) = some n ∧ pyIntVal (natChars n) = n ∧
    canonOctet (natChars n) = true ∧ 46 ∉ natChars n ∧ 47 ∉ natChars n := by
  have key : (natChars n).all isDigitCode = true ∧ natChars n ≠ [] ∧
      pyIntVal (natChars n) = n ∧
      ((natChars n).length = 1 ∨ (natChars n).headD 0 ≠ 48) ∧
      46 ∉ natChars n ∧ 47 ∉ natChars n := by
    rcases Nat.lt_or_ge n 10 with h1 | h1
    · rw [natChars_one n h1]
      refine ⟨?_, by simp, ?_, ?_, ?_, ?_⟩
      · simp [isDigitCode]
        omega
      · simp [pyIntVal]
      · simp
      · simp
        omega
      · simp
        omega
    rcases Nat.lt_or_ge n 100 with h2 | h2
    · rw [natChars_two n h2 h1]
      refine ⟨?_, by simp, ?_, ?_, ?_, ?_⟩
      · simp [isDigitCode]
        omega
      · simp [pyIntVal]
        omega
      · right
        simp
        omega
      · simp
        omega
      · simp
        omega
    · rw [natChars_three n (by omega) h2]
      refine ⟨?_, by simp, ?_, ?_, ?_, ?_⟩
      · simp [isDigitCode]
        omega
      · simp [pyIntVal]
        omega
      · right
        simp
        omega
      · simp
        omega
      · simp
        omega
  obtain ⟨hdig, hne, hval, hcanon, h46, h47⟩ := key
  refine ⟨?_, hval, ?_, h46, h47⟩
  · simp only [pyIntOpt, if_pos (And.intro hne hdig), hval]
  · simp only [canonOctet, octetOk, Bool.and_eq_true, Bool.or_eq_true, decide_eq_true_eq]
    refine ⟨⟨⟨hne, hdig⟩, by omega⟩, ?_⟩
    rcases hcanon with h1 | h1
    · exact Or.inl h1
    · exact Or.inr h1

theorem natChars_pyIntVal {l : List Nat} (h : canonOctet l = true) :
    natChars (pyIntVal l) = l := by
  simp only [canonOctet, octetOk, Bool.and_eq_true, Bool.or_eq_true, decide_eq_true_eq] at h
  obtain ⟨⟨⟨hne, hdig⟩, hval⟩, hcanon⟩ := h
  have hdigit : ∀ c ∈ l, 48 ≤ c ∧ c ≤ 57 := by
    intro c hm
    have := List.all_eq_true.mp hdig c hm
    simp only [isDigitCode, Bool.and_eq_true, decide_eq_true_eq] at this
    exact this
  match l with
  | [] => exact absurd rfl hne
  | [a] =>
    have ha := hdigit a (by simp)
    have hv : pyIntVal [a] = a - 48 := by simp [pyIntVal]
    rw [hv, natChars_one (a - 48) (by omega)]
    have : 48 + (a - 48) = a := by omega
    rw [this]
  | [a, b] =>
    have ha := hdigit a (by simp)
    have hb := hdigit b (by simp)
    have ha49 : 49 ≤ a := by
      rcases hcanon with h1 | h1
      · simp at h1
      · simp only [List.headD_cons] at h1
        omega
    have hv : pyIntVal [a, b] = (a - 48) * 10 + (b - 48) := by
      simp [pyIntVal]
    have hlo : 10 ≤ pyIntVal [a, b] := by omega
    have hhi : pyIntVal [a, b] < 100 := by omega
    rw [natChars_two _ hhi hlo, hv]
    have e1 : 48 + ((a - 48) * 10 + (b - 48)) / 10 = a := by omega
    have e2 : 48 + ((a - 48) * 10 + (b - 48)) % 10 = b := by omega
    rw [e1, e2]
  | [a, b, c] =>
    have ha := hdigit a (by simp)
    have hb := hdigit b (by simp)
    have hc := hdigit c (by simp)
    have ha49 : 49 ≤ a := by
      rcases hcanon with h1 | h1
      · simp at h1
      · simp only [List.headD_cons] at h1
        omega
    have hv : pyIntVal [a, b, c] = ((a - 48) * 10 + (b - 48)) * 10 + (c - 48) := by
      simp [pyIntVal]
    have hlo : 100 ≤ pyIntVal [a, b, c] := by omega
    have hhi : pyIntVal [a, b, c] < 1000 := by omega
    rw [natChars_three _ hhi hlo, hv]
    have e1 : 48 + (((a - 48) * 10 + (b - 48)) * 10 + (c - 48)) / 100 = a := by omega
    have e2 : 48 + (((a - 48) * 10 + (b - 48)) * 10 + (c - 48)) / 10 % 10 = b := by omega
    have e3 : 48 + (((a - 48) * 10 + (b - 48)) * 10 + (c - 48)) % 10 = c := by omega
    rw [e1, e2, e3]
  | a :: b :: c :: d :: t =>
    exfalso
    have ha := hdigit a (by simp)
    have ha49 : 49 ≤ a := by
      rcases hcanon with h1 | h1
      · simp at h1
      · simp only [List.headD_cons] at h1
        omega
    have hge := pyIntVal_ge a (b :: c :: d :: t) ha49
    have hpow : (1000:Nat) ≤ 10 ^ (b :: c :: d :: t).length := by
      have : (b :: c :: d :: t).length = 3 + t.length := by simp; omega
      rw [this]
      calc (1000:Nat) = 10 ^ 3 := by norm_num
        _ ≤ 10 ^ (3 + t.length) := Nat.pow_le_pow_right (by norm_num) (by omega)
    omega

/-! Bitwise helper lemmas: disjoint or is addition. -/

theorem testBit_mul_pow_add (a b n i : Nat) (hb : b < 2 ^ n) :
    Nat.testBit (a * 2 ^ n + b) i =
      if i < n then Nat.testBit b i else Nat.testBit a (i - n) := by
  rcases Nat.lt_or_ge i n with h | h
  · rw [if_pos h]
    rw [Nat.testBit_to_div_mod, Nat.testBit_to_div_mod]
    have hsplit : a * 2 ^ n = a * 2 ^ (n - i) * 2 ^ i := by
      rw [Nat.mul_assoc, ← Nat.pow_add]
      congr 2
      omega
    rw [hsplit, Nat.add_comm,
      Nat.add_mul_div_right _ _ (Nat.two_pow_pos i)]
    have hrw : a * 2 ^ (n - i) = a * 2 ^ (n - i - 1) * 2 := by
      have hp : (2:Nat) ^ (n - i) = 2 ^ (n - i - 1) * 2 := by
        rw [← Nat.pow_succ]
        congr 1
        omega
      rw [hp, ← Nat.mul_assoc]
    rw [hrw, Nat.add_mul_mod_self_right]
  · rw [if_neg (by omega)]
    rw [Nat.testBit_to_div_mod, Nat.testBit_to_div_mod]
    have hsplit : 2 ^ i = 2 ^ n * 2 ^ (i - n) := by
      rw [← Nat.pow_add]
      congr 1
      omega
    rw [hsplit, ← Nat.div_div_eq_div_mul, Nat.add_comm,
      Nat.add_mul_div_right _ _ (Nat.two_pow_pos n), Nat.div_eq_of_lt hb, Nat.zero_add]

theorem shiftLeft_lor_eq_add (a b n : Nat) (hb : b < 2 ^ n) :
    (a <<< n) ||| b = a * 2 ^ n + b := by
  apply Nat.eq_of_testBit_eq
  intro i
  rw [Nat.testBit_lor, Nat.testBit_shiftLeft, testBit_mul_pow_add a b n i hb]
  rcases Nat.lt_or_ge i n with h | h
  · rw [if_pos h]
    have hni : ¬ n ≤ i := by omega
    simp [hni]
  · rw [if_neg (by omega)]
    have hbi : Nat.testBit b i = false :=
      Nat.testBit_lt_two_pow (Nat.lt_of_lt_of_le hb (Nat.pow_le_pow_right (by omega) h))
    simp [h, hbi]

theorem lor_shiftLeft_distrib (x y n : Nat) :
    (x ||| y) <<< n = (x <<< n) ||| (y <<< n) := by
  apply Nat.eq_of_testBit_eq
  intro i
  simp [Nat.testBit_lor, Nat.testBit_shiftLeft, Bool.and_or_distrib_left]

theorem lor_step (p q n k : Nat) (hq : q < 2 ^ n) :
    (q <<< k) ||| (p <<< (n + k)) = (p * 2 ^ n + q) <<< k := by
  rw [Nat.shiftLeft_add, Nat.or_comm, ← lor_shiftLeft_distrib]
  congr 1
  exact shiftLeft_lor_eq_add p q n hq

theorem quadVal (p0 p1 p2 p3 : Nat) (h0 : p0 < 256) (h1 : p1 < 256) (h2 : p2 < 256)
    (h3 : p3 < 256) :
    (p3 <<< 0) ||| ((p2 <<< 8) ||| ((p1 <<< 16) ||| ((p0 <<< 24) ||| 0))) =
      p0 * 16777216 + p1 * 65536 + p2 * 256 + p3 := by
  have hb1 : p1 < 2 ^ 8 := by norm_num; omega
  have hb2 : p2 < 2 ^ 8 := by norm_num; omega
  have hb3 : p3 < 2 ^ 8 := by norm_num; omega
  have e1 : (p1 <<< 16) ||| (p0 <<< 24) = (p0 * 256 + p1) <<< 16 :=
    lor_step p0 p1 8 16 hb1
  have e2 : (p2 <<< 8) ||| ((p0 * 256 + p1) <<< 16) =
      ((p0 * 256 + p1) * 256 + p2) <<< 8 :=
    lor_step (p0 * 256 + p1) p2 8 8 hb2
  have e3 : (p3 <<< 0) ||| (((p0 * 256 + p1) * 256 + p2) <<< 8) =
      (((p0 * 256 + p1) * 256 + p2) * 256 + p3) <<< 0 :=
    lor_step ((p0 * 256 + p1) * 256 + p2) p3 8 0 hb3
  rw [Nat.or_zero, e1, e2, e3, Nat.shiftLeft_zero]
  ring

/-! Program-level lemmas. -/

theorem octetOk_parts {l : List Nat} (h : octetOk l = true) :
    l ≠ [] ∧ l.all isDigitCode = true ∧ pyIntVal l ≤ 255 := by
  simp only [octetOk, Bool.and_eq_true, decide_eq_true_eq] at h
  exact ⟨h.1.1, h.1.2, h.2⟩

theorem digit_not_mem {l : List Nat} (h : l.all isDigitCode = true) {c : Nat}
    (hc : c < 48) : c ∉ l := by
  intro hm
  have := List.all_eq_true.mp h c hm
  simp only [isDigitCode, Bool.and_eq_true, decide_eq_true_eq] at this
  omega

theorem pyIntOpt_of_octetOk {l : List Nat} (h : octetOk l = true) :
    pyIntOpt l = some (pyIntVal l) := by
  obtain ⟨hne, hdig, _⟩ := octetOk_parts h
  simp only [pyIntOpt, if_pos (And.intro hne hdig)]

theorem pySplit_quad {a b c d : List Nat} (ha : 46 ∉ a) (hb : 46 ∉ b) (hc : 46 ∉ c)
    (hd : 46 ∉ d) :
    pySplit 46 (a ++ 46 :: (b ++ 46 :: (c ++ 46 :: d))) = [a, b, c, d] := by
  rw [pySplit_append _ ha, pySplit_append _ hb, pySplit_append _ hc, pySplit_of_not_mem hd]

theorem canonOctet_octetOk {l : List Nat} (h : canonOctet l = true) : octetOk l = true := by
  simp only [canonOctet, Bool.and_eq_true] at h
  exact h.1

theorem ipv4_to_value_quad {a b c d : List Nat} (ha : octetOk a = true)
    (hb : octetOk b = true) (hc : octetOk c = true) (hd : octetOk d = true) :
    ipv4_to_value (a ++ 46 :: (b ++ 46 :: (c ++ 46 :: d))) =
      some (pyIntVal a * 16777216 + pyIntVal b * 65536 + pyIntVal c * 256 + pyIntVal d) := by
  have hma : 46 ∉ a := digit_not_mem (octetOk_parts ha).2.1 (by omega)
  have hmb : 46 ∉ b := digit_not_mem (octetOk_parts hb).2.1 (by omega)
  have hmc : 46 ∉ c := digit_not_mem (octetOk_parts hc).2.1 (by omega)
  have hmd : 46 ∉ d := digit_not_mem (octetOk_parts hd).2.1 (by omega)
  rw [ipv4_to_value, pySplit_quad hma hmb hmc hmd]
  rw [show ipv4Loop [a, b, c, d] 24 0 =
      ipv4Loop [b, c, d] 16 ((pyIntVal a <<< 24) ||| 0) by
    simp [ipv4Loop, pyIntOpt_of_octetOk ha]]
  rw [show ipv4Loop [b, c, d] 16 ((pyIntVal a <<< 24) ||| 0) =
      ipv4Loop [c, d] 8 ((pyIntVal b <<< 16) ||| ((pyIntVal a <<< 24) ||| 0)) by
    simp [ipv4Loop, pyIntOpt_of_octetOk hb]]
  rw [show ipv4Loop [c, d] 8 ((pyIntVal b <<< 16) ||| ((pyIntVal a <<< 24) ||| 0)) =
      ipv4Loop [d] 0 ((pyIntVal c <<< 8) |||
        ((pyIntVal b <<< 16) ||| ((pyIntVal a <<< 24) ||| 0))) by
    simp [ipv4Loop, pyIntOpt_of_octetOk hc]]
  rw [show ipv4Loop [d] 0 ((pyIntVal c <<< 8) |||
        ((pyIntVal b <<< 16) ||| ((pyIntVal a <<< 24) ||| 0))) =
      some ((pyIntVal d <<< 0) ||| ((pyIntVal c <<< 8) |||
        ((pyIntVal b <<< 16) ||| ((pyIntVal a <<< 24) ||| 0)))) by
    simp [ipv4Loop, pyIntOpt_of_octetOk hd]]
  have hva := (octetOk_parts ha).2.2
  have hvb := (octetOk_parts hb).2.2
  have hvc := (octetOk_parts hc).2.2
  have hvd := (octetOk_parts hd).2.2
  rw [quadVal _ _ _ _ (by omega : pyIntVal a < 256) (by omega : pyIntVal b < 256)
    (by omega : pyIntVal c < 256) (by omega : pyIntVal d < 256)]

theorem parsesIPv4_split {s : List Nat} (h : parsesIPv4 s = true) :
    ∃ a b c d, s = a ++ 46 :: (b ++ 46 :: (c ++ 46 :: d)) ∧
      octetOk a = true ∧ octetOk b = true ∧ octetOk c = true ∧ octetOk d = true ∧
      pySplit 46 s = [a, b, c, d] := by
  simp only [parsesIPv4, Bool.and_eq_true, decide_eq_true_eq] at h
  obtain ⟨hlen, hall⟩ := h
  obtain ⟨a, b, c, d, hsp⟩ : ∃ a b c d, pySplit 46 s = [a, b, c, d] := by
    rcases hps : pySplit 46 s with _ | ⟨a, _ | ⟨b, _ | ⟨c, _ | ⟨d, _ | ⟨e, t⟩⟩⟩⟩⟩ <;>
      rw [hps] at hlen <;> simp at hlen
    exact ⟨a, b, c, d, rfl⟩
  rw [hsp] at hall
  simp only [List.all_cons, List.all_nil, Bool.and_eq_true] at hall
  obtain ⟨ha, hb, hc, hd, _⟩ := hall
  refine ⟨a, b, c, d, ?_, ha, hb, hc, hd, hsp⟩
  have hj := joinSep_pySplit 46 s
  rw [hsp] at hj
  simp only [joinSep, List.cons_append] at hj
  exact hj.symm

theorem wellFormedIPv4_split {s : List Nat} (h : wellFormedIPv4 s = true) :
    ∃ a b c d, s = a ++ 46 :: (b ++ 46 :: (c ++ 46 :: d)) ∧
      canonOctet a = true ∧ canonOctet b = true ∧ canonOctet c = true ∧
      canonOctet d = true ∧ pySplit 46 s = [a, b, c, d] := by
  simp only [wellFormedIPv4, Bool.and_eq_true, decide_eq_true_eq] at h
  obtain ⟨hlen, hall⟩ := h
  obtain ⟨a, b, c, d, hsp⟩ : ∃ a b c d, pySplit 46 s = [a, b, c, d] := by
    rcases hps : pySplit 46 s with _ | ⟨a, _ | ⟨b, _ | ⟨c, _ | ⟨d, _ | ⟨e, t⟩⟩⟩⟩⟩ <;>
      rw [hps] at hlen <;> simp at hlen
    exact ⟨a, b, c, d, rfl⟩
  rw [hsp] at hall
  simp only [List.all_cons, List.all_nil, Bool.and_eq_true] at hall
  obtain ⟨ha, hb, hc, hd, _⟩ := hall
  refine ⟨a, b, c, d, ?_, ha, hb, hc, hd, hsp⟩
  have hj := joinSep_pySplit 46 s
  rw [hsp] at hj
  simp only [joinSep, List.cons_append] at hj
  exact hj.symm

theorem wellFormed_parses {s : List Nat} (h : wellFormedIPv4 s = true) :
    parsesIPv4 s = true := by
  simp only [wellFormedIPv4, parsesIPv4, Bool.and_eq_true, decide_eq_true_eq] at h ⊢
  refine ⟨h.1, ?_⟩
  rw [List.all_eq_true] at h ⊢
  intro x hx
  exact canonOctet_octetOk (h.2 x hx)

theorem ipv4_to_value_of_parses {s : List Nat} (h : parsesIPv4 s = true) :
    ∃ v, ipv4_to_value s = some v ∧ v < 2 ^ 32 := by
  obtain ⟨a, b, c, d, hs, ha, hb, hc, hd, _⟩ := parsesIPv4_split h
  refine ⟨_, by rw [hs]; exact ipv4_to_value_quad ha hb hc hd, ?_⟩
  have hva := (octetOk_parts ha).2.2
  have hvb := (octetOk_parts hb).2.2
  have hvc := (octetOk_parts hc).2.2
  have hvd := (octetOk_parts hd).2.2
  have : (2:Nat) ^ 32 = 4294967296 := by norm_num
  omega

set_option maxRecDepth 4000 in
theorem set_bits_val : ∀ n : Nat, n ≤ 32 →
    set_bits 0 (32 - (n : Int)) 32 = some (2 ^ 32 - 2 ^ (32 - n)) := by
  decide

theorem get_subnet_mask_value_concat {n : Nat} (hn : n ≤ 32) (t : List Nat) :
    get_subnet_mask_value (t ++ 47 :: natChars n) = some (2 ^ 32 - 2 ^ (32 - n)) := by
  have h47 : 47 ∉ natChars n := (natChars_props n (by omega)).2.2.2.2
  have hopt : pyIntOpt (natChars n) = some n := (natChars_props n (by omega)).1
  rw [get_subnet_mask_value]
  rw [List.getLastD_eq_getLast?, getLast?_pySplit_append t h47]
  simp only [Option.getD_some, hopt]
  exact set_bits_val n hn

theorem get_subnet_mask_value_slash {n : Nat} (hn : n ≤ 32) :
    get_subnet_mask_value (47 :: natChars n) = some (2 ^ 32 - 2 ^ (32 - n)) := by
  have := get_subnet_mask_value_concat hn []
  simpa using this

theorem value_to_ipv4_eq (addr : Nat) :
    value_to_ipv4 addr =
      natChars ((addr >>> 24) &&& 255) ++ 46 :: (natChars ((addr >>> 16) &&& 255) ++ 46 ::
        (natChars ((addr >>> 8) &&& 255) ++ 46 :: natChars ((addr >>> 0) &&& 255))) := by
  simp [value_to_ipv4, List.foldl_cons, List.foldl_nil, List.append_assoc]

theorem and_255_eq_mod (x : Nat) : x &&& 255 = x % 256 := by
  have h1 : (255 : Nat) = 2 ^ 8 - 1 := by norm_num
  have h2 : (256 : Nat) = 2 ^ 8 := by norm_num
  rw [h1, h2, Nat.and_pow_two_sub_one_eq_mod]

theorem octet_extract (v k : Nat) : (v >>> k) &&& 255 = v / 2 ^ k % 256 := by
  rw [Nat.shiftRight_eq_div_pow, and_255_eq_mod]

theorem rt_value {v : Nat} (hv : v < 2 ^ 32) :
    ipv4_to_value (value_to_ipv4 v) = some v := by
  rw [value_to_ipv4_eq]
  have hb : ∀ k : Nat, (v >>> k) &&& 255 ≤ 255 := by
    intro k
    rw [octet_extract]
    omega
  have hok : ∀ k : Nat, octetOk (natChars ((v >>> k) &&& 255)) = true := by
    intro k
    exact canonOctet_octetOk (natChars_props _ (hb k)).2.2.1
  rw [ipv4_to_value_quad (hok 24) (hok 16) (hok 8) (hok 0)]
  have hval : ∀ k : Nat, pyIntVal (natChars ((v >>> k) &&& 255)) = (v >>> k) &&& 255 :=
    fun k => (natChars_props _ (hb k)).2.1
  rw [hval, hval, hval, hval]
  rw [octet_extract, octet_extract, octet_extract, octet_extract]
  congr 1
  have h32 : (2:Nat) ^ 32 = 4294967296 := by norm_num
  have e24 : (2:Nat) ^ 24 = 16777216 := by norm_num
  have e16 : (2:Nat) ^ 16 = 65536 := by norm_num
  have e8 : (2:Nat) ^ 8 = 256 := by norm_num
  have e0 : (2:Nat) ^ 0 = 1 := by norm_num
  rw [e24, e16, e8, e0] at *
  omega

theorem rt_string {s : List Nat} (hs : wellFormedIPv4 s = true) :
    ∃ v, ipv4_to_value s = some v ∧ value_to_ipv4 v = s := by
  obtain ⟨a, b, c, d, hsplit, ha, hb, hc, hd, _⟩ := wellFormedIPv4_split hs
  have hoa := canonOctet_octetOk ha
  have hob := canonOctet_octetOk hb
  have hoc := canonOctet_octetOk hc
  have hod := canonOctet_octetOk hd
  have hva := (octetOk_parts hoa).2.2
  have hvb := (octetOk_parts hob).2.2
  have hvc := (octetOk_parts hoc).2.2
  have hvd := (octetOk_parts hod).2.2
  refine ⟨pyIntVal a * 16777216 + pyIntVal b * 65536 + pyIntVal c * 256 + pyIntVal d,
    by rw [hsplit]; exact ipv4_to_value_quad hoa hob hoc hod, ?_⟩
  rw [value_to_ipv4_eq]
  have ea : ((pyIntVal a * 16777216 + pyIntVal b * 65536 + pyIntVal c * 256 + pyIntVal d) >>> 24)
      &&& 255 = pyIntVal a := by
    rw [octet_extract]
    have : (2:Nat) ^ 24 = 16777216 := by norm_num
    omega
  have eb : ((pyIntVal a * 16777216 + pyIntVal b * 65536 + pyIntVal c * 256 + pyIntVal d) >>> 16)
      &&& 255 = pyIntVal b := by
    rw [octet_extract]
    have : (2:Nat) ^ 16 = 65536 := by norm_num
    omega
  have ec : ((pyIntVal a * 16777216 + pyIntVal b * 65536 + pyIntVal c * 256 + pyIntVal d) >>> 8)
      &&& 255 = pyIntVal c := by
    rw [octet_extract]
    have : (2:Nat) ^ 8 = 256 := by norm_num
    omega
  have ed : ((pyIntVal a * 16777216 + pyIntVal b * 65536 + pyIntVal c * 256 + pyIntVal d) >>> 0)
      &&& 255 = pyIntVal d := by
    rw [octet_extract]
    have : (2:Nat) ^ 0 = 1 := by norm_num
    omega
  rw [ea, eb, ec, ed]
  rw [natChars_pyIntVal ha, natChars_pyIntVal hb, natChars_pyIntVal hc, natChars_pyIntVal hd]
  exact hsplit.symm

theorem wf_value_to_ipv4 {v : Nat} (hv : v < 2 ^ 32) :
    wellFormedIPv4 (value_to_ipv4 v) = true := by
  rw [value_to_ipv4_eq]
  have hb : ∀ k : Nat, (v >>> k) &&& 255 ≤ 255 := by
    intro k
    rw [octet_extract]
    omega
  have hcanon : ∀ k : Nat, canonOctet (natChars ((v >>> k) &&& 255)) = true :=
    fun k => (natChars_props _ (hb k)).2.2.1
  have hd : ∀ k : Nat, 46 ∉ natChars ((v >>> k) &&& 255) :=
    fun k => (natChars_props _ (hb k)).2.2.2.1
  have hcanon0 : canonOctet (natChars (v &&& 255)) = true := by
    have := hcanon 0
    simpa using this
  rw [wellFormedIPv4, pySplit_quad (hd 24) (hd 16) (hd 8) (hd 0)]
  simp [hcanon 24, hcanon 16, hcanon 8, hcanon0]

theorem ips_same_subnet_eq {ip1 ip2 slash : List Nat} {m v1 v2 : Nat}
    (hm : get_subnet_mask_value slash = some m) (h1 : ipv4_to_value ip1 = some v1)
    (h2 : ipv4_to_value ip2 = some v2) :
    ips_same_subnet ip1 ip2 slash = some (decide (v1 &&& m = v2 &&& m)) := by
  rw [ips_same_subnet, hm, h1, h2]

theorem ips_same_subnet_comm (ip1 ip2 slash : List Nat) :
    ips_same_subnet ip1 ip2 slash = ips_same_subnet ip2 ip1 slash := by
  rcases hm : get_subnet_mask_value slash with _ | m
  · rw [ips_same_subnet, ips_same_subnet, hm]
  · rcases h1 : ipv4_to_value ip1 with _ | v1 <;> rcases h2 : ipv4_to_value ip2 with _ | v2
    · rw [ips_same_subnet, ips_same_subnet, hm, h1, h2]
    · rw [ips_same_subnet, ips_same_subnet, hm, h1, h2]
    · rw [ips_same_subnet, ips_same_subnet, hm, h1, h2]
    · rw [ips_same_subnet_eq hm h1 h2, ips_same_subnet_eq hm h2 h1]
      congr 1
      exact decide_eq_decide.mpr eq_comm

theorem find_router_first_match (routers : List (List Nat × List Nat)) (ip : List Nat)
    (hip : parsesIPv4 ip = true)
    (hr : ∀ r ∈ routers, parsesIPv4 r.1 = true ∧ (get_subnet_mask_value r.2).isSome = true) :
    find_router_for_ip routers ip =
      some ((routers.find? (fun r => (ips_same_subnet ip r.1 r.2).getD false)).map Prod.fst) := by
  induction routers with
  | nil => simp [find_router_for_ip]
  | cons r rest ih =>
    obtain ⟨hk, hmse⟩ := hr r (List.mem_cons_self r rest)
    obtain ⟨m, hm⟩ := Option.isSome_iff_exists.mp hmse
    obtain ⟨v1, h1, _⟩ := ipv4_to_value_of_parses hip
    obtain ⟨v2, h2, _⟩ := ipv4_to_value_of_parses hk
    have hss : ips_same_subnet ip r.1 r.2 = some (decide (v1 &&& m = v2 &&& m)) :=
      ips_same_subnet_eq hm h1 h2
    have ihr := ih (fun q hq => hr q (List.mem_cons_of_mem r hq))
    rcases r with ⟨rip, rmask⟩
    by_cases hsame : v1 &&& m = v2 &&& m
    · rw [show find_router_for_ip ((rip, rmask) :: rest) ip = some (some rip) by
        rw [find_router_for_ip, hss]
        simp [hsame]]
      rw [List.find?_cons_of_pos _ (by simp only [hss]; simp [hsame])]
      rfl
    · rw [show find_router_for_ip ((rip, rmask) :: rest) ip = find_router_for_ip rest ip by
        rw [find_router_for_ip, hss]
        simp [hsame]]
      rw [List.find?_cons_of_neg _ (by simp only [hss]; simp [hsame])]
      exact ihr

/-! Claim theorems. -/

/-- C1: round-trip.  For every well-formed canonical dotted-decimal IPv4
string s (four decimal parts, each 0 to 255, no leading zeros),
converting to a value and back with `value_to_ipv4` yields s; and for
every integer v below 2 ^ 32, converting to a string and back with
`ipv4_to_value` yields v. -/
theorem claim_c1 (s : List Nat) (v : Nat) (hs : wellFormedIPv4 s = true)
    (hv : v < 2 ^ 32) :
    value_to_ipv4 ((ipv4_to_value s).getD 0) = s ∧
    ipv4_to_value (value_to_ipv4 v) = some v := by
  obtain ⟨w, hw, hrt⟩ := rt_string hs
  rw [hw]
  exact ⟨hrt, rt_value hv⟩

theorem claim_c1_witness :
    value_to_ipv4 ((ipv4_to_value (strCodes "1.2.3.4")).getD 0) = strCodes "1.2.3.4" ∧
    ipv4_to_value (value_to_ipv4 16909060) = some 16909060 :=
  claim_c1 (strCodes "1.2.3.4") 16909060 (by decide) (by decide)

/-- C2: for well-formed dotted addresses and every prefix length from 1
to 31 in slash notation, `ips_same_subnet` returns exactly the
comparison of the two masked address values; in particular the two
documented examples hold. -/
theorem claim_c2 (ip1 ip2 : List Nat) (n : Nat) (h1 : parsesIPv4 ip1 = true)
    (h2 : parsesIPv4 ip2 = true) (hn1 : 1 ≤ n) (hn2 : n ≤ 31) :
    ips_same_subnet ip1 ip2 (47 :: natChars n) =
      some (decide
        ((ipv4_to_value ip1).getD 0 &&& (get_subnet_mask_value (47 :: natChars n)).getD 0 =
         (ipv4_to_value ip2).getD 0 &&& (get_subnet_mask_value (47 :: natChars n)).getD 0)) ∧
    ips_same_subnet (strCodes "10.23.121.17") (strCodes "10.23.121.225") (strCodes "/23") =
      some true ∧
    ips_same_subnet (strCodes "10.23.230.22") (strCodes "10.24.121.225") (strCodes "/16") =
      some false := by
  have hm := get_subnet_mask_value_slash (show n ≤ 32 by omega)
  obtain ⟨v1, hv1, _⟩ := ipv4_to_value_of_parses h1
  obtain ⟨v2, hv2, _⟩ := ipv4_to_value_of_parses h2
  refine ⟨?_, by decide, by decide⟩
  rw [ips_same_subnet_eq hm hv1 hv2, hm, hv1, hv2]
  simp [Option.getD_some]

theorem claim_c2_witness :
    ips_same_subnet (strCodes "10.23.121.17") (strCodes "10.23.121.225")
        (47 :: natChars 23) =
      some (decide
        ((ipv4_to_value (strCodes "10.23.121.17")).getD 0 &&&
            (get_subnet_mask_value (47 :: natChars 23)).getD 0 =
         (ipv4_to_value (strCodes "10.23.121.225")).getD 0 &&&
            (get_subnet_mask_value (47 :: natChars 23)).getD 0)) ∧
    ips_same_subnet (strCodes "10.23.121.17") (strCodes "10.23.121.225") (strCodes "/23") =
      some true ∧
    ips_same_subnet (strCodes "10.23.230.22") (strCodes "10.24.121.225") (strCodes "/16") =
      some false :=
  claim_c2 (strCodes "10.23.121.17") (strCodes "10.23.121.225") 23 (by decide) (by decide)
    (by decide) (by decide)

/-- C3: for every prefix length N up to 32, `get_subnet_mask_value`
applied to a spec ending in slash N returns the value with the
high-order N bits set (2 ^ 32 - 2 ^ (32 - N)), any address text before
the final slash is ignored, and the documented examples hold. -/
theorem claim_c3 (t : List Nat) (n : Nat) (hn : n ≤ 32) :
    get_subnet_mask_value (t ++ 47 :: natChars n) = some (2 ^ 32 - 2 ^ (32 - n)) ∧
    get_subnet_mask_value (47 :: natChars n) = some (2 ^ 32 - 2 ^ (32 - n)) ∧
    get_subnet_mask_value (strCodes "/0") = some 0 ∧
    get_subnet_mask_value (strCodes "/16") = some 0xffff0000 ∧
    get_subnet_mask_value (strCodes "/23") = some 0xfffffe00 ∧
    get_subnet_mask_value (strCodes "/32") = some 0xffffffff ∧
    get_subnet_mask_value (strCodes "10.20.30.40/23") = some 0xfffffe00 :=
  ⟨get_subnet_mask_value_concat hn t, get_subnet_mask_value_slash hn, by decide, by decide,
    by decide, by decide, by decide⟩

theorem claim_c3_witness :
    get_subnet_mask_value (strCodes "10.20.30.40" ++ 47 :: natChars 23) =
      some (2 ^ 32 - 2 ^ (32 - 23)) ∧
    get_subnet_mask_value (47 :: natChars 23) = some (2 ^ 32 - 2 ^ (32 - 23)) ∧
    get_subnet_mask_value (strCodes "/0") = some 0 ∧
    get_subnet_mask_value (strCodes "/16") = some 0xffff0000 ∧
    get_subnet_mask_value (strCodes "/23") = some 0xfffffe00 ∧
    get_subnet_mask_value (strCodes "/32") = some 0xffffffff ∧
    get_subnet_mask_value (strCodes "10.20.30.40/23") = some 0xfffffe00 :=
  claim_c3 (strCodes "10.20.30.40") 23 (by decide)

/-- C4: for every dotted-decimal string of exactly four parts, each a
decimal integer from 0 to 255 (such strings are exactly the joins of
four dot-free `octetOk` parts), `ipv4_to_value` returns the sum of the
parts shifted by 24, 16, 8 and 0 bits, first part most significant; in
particular the two documented examples hold. -/
theorem claim_c4 (a b c d : List Nat) (ha : octetOk a = true) (hb : octetOk b = true)
    (hc : octetOk c = true) (hd : octetOk d = true) :
    ipv4_to_value (a ++ 46 :: (b ++ 46 :: (c ++ 46 :: d))) =
      some (pyIntVal a * 2 ^ 24 + pyIntVal b * 2 ^ 16 + pyIntVal c * 2 ^ 8 + pyIntVal d) ∧
    ipv4_to_value (strCodes "255.255.0.0") = some 0xffff0000 ∧
    ipv4_to_value (strCodes "1.2.3.4") = some 0x01020304 := by
  refine ⟨?_, by decide, by decide⟩
  rw [ipv4_to_value_quad ha hb hc hd]
  norm_num

theorem claim_c4_witness :
    ipv4_to_value (strCodes "255" ++ 46 :: (strCodes "255" ++ 46 ::
        (strCodes "0" ++ 46 :: strCodes "0"))) =
      some (pyIntVal (strCodes "255") * 2 ^ 24 + pyIntVal (strCodes "255") * 2 ^ 16 +
        pyIntVal (strCodes "0") * 2 ^ 8 + pyIntVal (strCodes "0")) ∧
    ipv4_to_value (strCodes "255.255.0.0") = some 0xffff0000 ∧
    ipv4_to_value (strCodes "1.2.3.4") = some 0x01020304 :=
  claim_c4 (strCodes "255") (strCodes "255") (strCodes "0") (strCodes "0")
    (by decide) (by decide) (by decide) (by decide)

/-- C5 counterexample: the claim says `find_router_for_ip` iterates the
routers sorted by router key; on a table stored in non-sorted order with
overlapping subnets, the code (insertion-order iteration) returns a
different router than the sorted iteration the claim describes. -/
theorem claim_c5_counterexample :
    find_router_for_ip
        [(strCodes "2.0.0.2", strCodes "/8"), (strCodes "2.0.0.1", strCodes "/7")]
        (strCodes "2.5.5.5") = some (some (strCodes "2.0.0.2")) ∧
    find_router_for_ip_claimed
        [(strCodes "2.0.0.2", strCodes "/8"), (strCodes "2.0.0.1", strCodes "/7")]
        (strCodes "2.5.5.5") = some (some (strCodes "2.0.0.1")) ∧
    (some (some (strCodes "2.0.0.2")) : Option (Option (List Nat))) ≠
      some (some (strCodes "2.0.0.1")) :=
  ⟨by decide, by decide, by decide⟩

/-- C5 (amended): `find_router_for_ip` iterates the routers in the
order stored in the table (Python dict insertion order, not sorted by
key), returns the key of the first router on the same subnet as the
address, and returns None — never an error — when no router matches,
provided the addresses and netmasks are well formed; the two documented
examples hold. -/
theorem claim_c5 (routers : List (List Nat × List Nat)) (ip : List Nat)
    (hip : parsesIPv4 ip = true)
    (hr : ∀ r ∈ routers, parsesIPv4 r.1 = true ∧ (get_subnet_mask_value r.2).isSome = true) :
    find_router_for_ip routers ip =
      some ((routers.find? (fun r => (ips_same_subnet ip r.1 r.2).getD false)).map Prod.fst) ∧
    find_router_for_ip [(strCodes "1.2.3.1", strCodes "/24"), (strCodes "1.2.4.1", strCodes "/24")]
      (strCodes "1.2.3.5") = some (some (strCodes "1.2.3.1")) ∧
    find_router_for_ip [(strCodes "1.2.3.1", strCodes "/24"), (strCodes "1.2.4.1", strCodes "/24")]
      (strCodes "1.2.5.6") = some none :=
  ⟨find_router_first_match routers ip hip hr, by decide, by decide⟩

theorem claim_c5_witness :
    find_router_for_ip [(strCodes "1.2.3.1", strCodes "/24"), (strCodes "1.2.4.1", strCodes "/24")]
        (strCodes "1.2.3.5") =
      some ((([(strCodes "1.2.3.1", strCodes "/24"), (strCodes "1.2.4.1", strCodes "/24")]).find?
        (fun r => (ips_same_subnet (strCodes "1.2.3.5") r.1 r.2).getD false)).map Prod.fst) ∧
    find_router_for_ip [(strCodes "1.2.3.1", strCodes "/24"), (strCodes "1.2.4.1", strCodes "/24")]
      (strCodes "1.2.3.5") = some (some (strCodes "1.2.3.1")) ∧
    find_router_for_ip [(strCodes "1.2.3.1", strCodes "/24"), (strCodes "1.2.4.1", strCodes "/24")]
      (strCodes "1.2.5.6") = some none :=
  claim_c5 [(strCodes "1.2.3.1", strCodes "/24"), (strCodes "1.2.4.1", strCodes "/24")]
    (strCodes "1.2.3.5") (by decide) (by decide)

/-- C6: the claim says the third report section succeeds even when both
matched and unmatched addresses are present; in fact the code then
raises TypeError (Python 3 cannot sort None against str), modelled here
as the none result on the documented two-router example shape. -/
theorem claim_c6 :
    print_ip_routers [(strCodes "1.2.3.1", strCodes "/24")]
      [(strCodes "1.2.3.5", strCodes "1.2.5.6")] = none := by decide

/-- C7: boundary behaviour — a slash-0 prefix matches any two
well-formed canonical addresses, and a slash-32 prefix matches exactly
when the two addresses are the same. -/
theorem claim_c7 (ip1 ip2 : List Nat) (h1 : wellFormedIPv4 ip1 = true)
    (h2 : wellFormedIPv4 ip2 = true) :
    ips_same_subnet ip1 ip2 (strCodes "/0") = some true ∧
    ips_same_subnet ip1 ip2 (strCodes "/32") = some (decide (ip1 = ip2)) := by
  obtain ⟨v1, hv1, hrt1⟩ := rt_string h1
  obtain ⟨v2, hv2, hrt2⟩ := rt_string h2
  obtain ⟨v1b, hv1b, hlt1⟩ := ipv4_to_value_of_parses (wellFormed_parses h1)
  obtain ⟨v2b, hv2b, hlt2⟩ := ipv4_to_value_of_parses (wellFormed_parses h2)
  have h1lt : v1 < 2 ^ 32 := by
    rw [hv1] at hv1b
    rw [Option.some.inj hv1b]
    exact hlt1
  have h2lt : v2 < 2 ^ 32 := by
    rw [hv2] at hv2b
    rw [Option.some.inj hv2b]
    exact hlt2
  have e0 : strCodes "/0" = 47 :: natChars 0 := by decide
  have e32 : strCodes "/32" = 47 :: natChars 32 := by decide
  have hm0 : get_subnet_mask_value (47 :: natChars 0) = some 0 := by
    rw [get_subnet_mask_value_slash (by omega)]
    norm_num
  have hm32 : get_subnet_mask_value (47 :: natChars 32) = some 4294967295 := by
    rw [get_subnet_mask_value_slash (by omega)]
    norm_num
  constructor
  · rw [e0, ips_same_subnet_eq hm0 hv1 hv2]
    simp [Nat.and_zero]
  · rw [e32, ips_same_subnet_eq hm32 hv1 hv2]
    have hand : ∀ w : Nat, w < 2 ^ 32 → w &&& 4294967295 = w := by
      intro w hw
      have h255 : (4294967295 : Nat) = 2 ^ 32 - 1 := by norm_num
      rw [h255, Nat.and_pow_two_sub_one_eq_mod, Nat.mod_eq_of_lt hw]
    rw [hand v1 h1lt, hand v2 h2lt]
    congr 1
    apply decide_eq_decide.mpr
    constructor
    · intro he
      rw [← hrt1, ← hrt2, he]
    · intro he
      rw [he] at hv1
      exact Option.some.inj (hv1.symm.trans hv2)

theorem claim_c7_witness :
    ips_same_subnet (strCodes "1.2.3.4") (strCodes "1.2.3.5") (strCodes "/0") = some true ∧
    ips_same_subnet (strCodes "1.2.3.4") (strCodes "1.2.3.5") (strCodes "/32") =
      some (decide (strCodes "1.2.3.4" = strCodes "1.2.3.5")) :=
  claim_c7 (strCodes "1.2.3.4") (strCodes "1.2.3.5") (by decide) (by decide)

/-- C8: invoked with no positional input-file argument, main prints the
usage message to the error stream and returns exit status 1. -/
theorem claim_c8 (argv : List (List Nat)) (h : argv.length ≤ 1) :
    mainEntry argv = MainStep.usageExit [strCodes "usage: netfuncs.py infile.json"] 1 := by
  rw [mainEntry, List.getElem?_eq_none h]
  rfl

theorem claim_c8_witness :
    mainEntry [strCodes "netfuncs.py"] =
      MainStep.usageExit [strCodes "usage: netfuncs.py infile.json"] 1 :=
  claim_c8 [strCodes "netfuncs.py"] (by decide)

/-- C9: `ips_same_subnet` is symmetric in its two address arguments for
well-formed addresses and any prefix length up to 32. -/
theorem claim_c9 (ip1 ip2 : List Nat) (n : Nat) (h1 : parsesIPv4 ip1 = true)
    (h2 : parsesIPv4 ip2 = true) (hn : n ≤ 32) :
    ips_same_subnet ip1 ip2 (47 :: natChars n) = ips_same_subnet ip2 ip1 (47 :: natChars n) :=
  ips_same_subnet_comm ip1 ip2 (47 :: natChars n)

theorem claim_c9_witness :
    ips_same_subnet (strCodes "10.23.121.17") (strCodes "10.23.121.225") (47 :: natChars 23) =
      ips_same_subnet (strCodes "10.23.121.225") (strCodes "10.23.121.17") (47 :: natChars 23) :=
  claim_c9 (strCodes "10.23.121.17") (strCodes "10.23.121.225") 23 (by decide) (by decide)
    (by decide)

/-- C10: for every value below 2 ^ 32, `value_to_ipv4` produces a
well-formed dotted-decimal string: four parts joined by dots, each a
decimal integer from 0 to 255 with no leading zeros. -/
theorem claim_c10 (v : Nat) (hv : v < 2 ^ 32) :
    wellFormedIPv4 (value_to_ipv4 v) = true :=
  wf_value_to_ipv4 hv

theorem claim_c10_witness : wellFormedIPv4 (value_to_ipv4 4294901760) = true :=
  claim_c10 4294901760 (by decide)
